import Mathlib

/-!
Verification development for the phone-shop / weather agent repository.

The Python code under `src/` is shallowly embedded here:
* Python strings are modelled as `List Char`; `str.lower` is modelled with
  `Char.toLower` (the strings involved are ASCII).
* Mutable state (the MCP client's connection handle) is passed explicitly.
* Third-party library calls (the FastMCP protocol client, `json.loads`,
  `hashlib.md5`, the ChromaDB collection, the on-disk policy files) are
  modelled as explicit oracle/environment parameters; pure repository code
  is translated directly.
* A Python function that can raise is modelled with an explicit outcome
  constructor for the raised exception; a function that always returns is
  modelled as a total Lean function.
-/

set_option autoImplicit false
set_option maxRecDepth 200000

namespace PhoneShop

/-! ### Python string primitives -/

/-- Python's whitespace class as used by `str.strip` / `str.split`, by code
point: space (32), tab (9), newline (10), vertical tab (11), form feed (12),
carriage return (13). -/
def pyIsSpace (c : Char) : Bool :=
  c.toNat == 32 || c.toNat == 9 || c.toNat == 10 ||
    c.toNat == 11 || c.toNat == 12 || c.toNat == 13

/-- `str.lower`, restricted to the ASCII case mapping. -/
def pyLower (s : List Char) : List Char :=
  s.map Char.toLower

/-- Python slicing `text[s:e]` for `0 ≤ s ≤ e` (clamped at the end of the
string, as Python does). -/
def pySlice (text : List Char) (s e : Nat) : List Char :=
  (text.drop s).take (e - s)

/-- Python `str.strip()`: drop leading and trailing whitespace. -/
def pyStrip (l : List Char) : List Char :=
  ((l.dropWhile pyIsSpace).reverse.dropWhile pyIsSpace).reverse

/-- Helper for `pyWords`: accumulates the current word (reversed) while
scanning. -/
def pyWordsAux : List Char → List Char → List (List Char)
  | acc, [] => if acc.isEmpty then [] else [acc.reverse]
  | acc, c :: cs =>
    if pyIsSpace c then
      if acc.isEmpty then pyWordsAux [] cs else acc.reverse :: pyWordsAux [] cs
    else
      pyWordsAux (c :: acc) cs

/-- Python `str.split()` with no argument: maximal runs of non-whitespace. -/
def pyWords (s : List Char) : List (List Char) :=
  pyWordsAux [] s

/-- Boolean substring test: `pat` occurs contiguously inside `l`
(Python's `pat in l`). -/
def containsSub (pat l : List Char) : Bool :=
  (List.range (l.length + 1)).any (fun i => pat.isPrefixOf (l.drop i))

/-- `"\n".join(lines)`. -/
def joinNL : List (List Char) → List Char
  | [] => []
  | [l] => l
  | l :: ls => l ++ '\n' :: joinNL ls

/-- Helper for `pyLines`: accumulates the current line (reversed). -/
def pyLinesAux : List Char → List Char → List (List Char)
  | acc, [] => [acc.reverse]
  | acc, c :: cs =>
    if c == '\n' then acc.reverse :: pyLinesAux [] cs else pyLinesAux (c :: acc) cs

/-- Python `s.split('\n')` (empty pieces kept). -/
def pyLines (s : List Char) : List (List Char) :=
  pyLinesAux [] s

/-- Python `text.rfind('.', s, e)`: the greatest index `i` with
`s ≤ i < min e (len text)` and `text[i] = '.'`, if any. -/
def pyRfindDot (text : List Char) (s e : Nat) : Option Nat :=
  (((List.range text.length).filter
    (fun i => decide (s ≤ i) && decide (i < e) && (text.getD i ' ' == '.'))).getLast?)

/-! ### `PolicyVectorStore._chunk_text` (rag/vector_store.py)

The `while start < len(text)` loop is written with explicit fuel; the loop
advances `start` by at least `chunkSize - overlap - 98` characters per
iteration with the parameters used by the repository (500/50), so
`text.length + 1` steps always suffice there.  Python's
`start = end - overlap` on `int` never goes below `overlap ≤ end` for those
parameters, so `Nat` subtraction is faithful. -/

/-- The `end` of one iteration: `end = start + chunk_size`, moved back to
just after the last `'.'` in the window when that dot lies in the final 100
characters of the window (lines 64-71; the dot search only happens while
`end < len(text)`). -/
def chunkEnd (text : List Char) (chunkSize start : Nat) : Nat :=
  if start + chunkSize < text.length then
    match pyRfindDot text start (start + chunkSize) with
    | some i =>
      if (i : Int) > (start : Int) + (chunkSize : Int) - 100 then i + 1
      else start + chunkSize
    | none => start + chunkSize
  else start + chunkSize

/-- One `while` iteration of `_chunk_text`, then the rest of the loop. -/
def chunkLoop (text : List Char) (chunkSize overlap : Nat) : Nat → Nat → List (List Char)
  | 0, _ => []
  | fuel + 1, start =>
    if start < text.length then
      (if (pyStrip (pySlice text start (chunkEnd text chunkSize start))).isEmpty then []
       else [pyStrip (pySlice text start (chunkEnd text chunkSize start))]) ++
        chunkLoop text chunkSize overlap fuel (chunkEnd text chunkSize start - overlap)
    else []

/-- `PolicyVectorStore._chunk_text(text, chunk_size, overlap)`. -/
def chunkText (text : List Char) (chunkSize overlap : Nat) : List (List Char) :=
  if text.length ≤ chunkSize then [text]
  else chunkLoop text chunkSize overlap (text.length + 1) 0

/-! ### `PolicyVectorStore._generate_doc_id` / `add_document`

`hashlib.md5(...).hexdigest()` is a third-party primitive; it is modelled as
an oracle `hash : List Char → List Char` supplied as a parameter.  The
ChromaDB collection is modelled by its list of stored (distinct) ids:
`collection.add` does not create a second entry for an id that is already
present. -/

/-- `_generate_doc_id(content, source)`:
`f"{source}_{md5(f"{source}:{content}").hexdigest()[:8]}"`. -/
def generateDocId (hash : List Char → List Char) (content source : List Char) : List Char :=
  source ++ ('_' :: (hash (source ++ (':' :: content))).take 8)

/-- The chunk ids produced by `add_document(content, source, ...)`: chunk `i`
gets id `_generate_doc_id(chunk, f"{source}_chunk_{i}")`. -/
def addDocumentIds (hash : List Char → List Char) (content source : List Char) : List (List Char) :=
  (chunkText content 500 50).enum.map
    (fun ci => generateDocId hash ci.snd (source ++ ("_chunk_".toList ++ Nat.toDigits 10 ci.fst)))

/-- Insert one id into the collection's id list (no duplicate entries). -/
def insertId (store : List (List Char)) (id : List Char) : List (List Char) :=
  if id ∈ store then store else store ++ [id]

/-- The collection's id list after `add_document(content, source, ...)`. -/
def addDocument (hash : List Char → List Char) (content source : List Char)
    (store : List (List Char)) : List (List Char) :=
  (addDocumentIds hash content source).foldl insertId store

/-! ### `_fallback_text_search` / `search_warranty_info` (rag/retriever.py)

The policy files on disk are modelled by an oracle
`files : List Char → Option (List (List Char))` mapping a filename to the
list of lines of its content (`content.splitlines()`); `none` means the file
does not exist (or could not be read — both are skipped identically). -/

/-- `_DOCUMENT_TYPE_TO_FILENAME.get(document_type)`. -/
def docTypeToFilename (documentType : List Char) : Option (List Char) :=
  if documentType = "warranty_policy".toList then some "warranty_policy.md".toList
  else if documentType = "replacement_policy".toList then some "replacement_policy.md".toList
  else if documentType = "customer_support".toList then some "customer_support_faq.md".toList
  else none

/-- `filename.replace(".md", "")` for the three policy filenames (each
contains the substring `.md` exactly once, as its extension). -/
def sourceOfFilename (filename : List Char) : List Char :=
  filename.take (filename.length - 3)

/-- One fallback search result: the dictionary built at
retriever.py lines 64-75.  `relevance` models the literal `0.4`. -/
structure FallbackResult where
  content : List Char
  source : List Char
  documentType : List Char
  fallback : Bool
  relevance : ℚ

/-- The tokens of the query: `[token.lower() for token in query.split()]`. -/
def queryTokens (query : List Char) : List (List Char) :=
  (pyWords query).map pyLower

/-- The snippet window around line `i`:
`"\n".join(lines[max(0, i-2):min(len(lines), i+3)]).strip()`. -/
def snippetAt (lines : List (List Char)) (i : Nat) : List Char :=
  pyStrip (joinNL ((lines.drop (i - 2)).take (min lines.length (i + 3) - (i - 2))))

/-- Line `i` contains some query token, case-insensitively
(`any(token in lowered for token in tokens)`). -/
def snippetGuard (lines tokens : List (List Char)) (i : Nat) : Bool :=
  tokens.any (fun t => containsSub t (pyLower (lines.getD i [])))

/-- The body of the `for index, line in enumerate(lines)` loop: add line
`i`'s window unless it strips to nothing or was already collected. -/
def snipStep (lines tokens : List (List Char)) (acc : List (List Char)) (i : Nat) :
    List (List Char) :=
  if snippetGuard lines tokens i then
    if (snippetAt lines i).isEmpty = false ∧ snippetAt lines i ∉ acc then
      acc ++ [snippetAt lines i]
    else acc
  else acc

/-- The `snippets` list for one document: scan the lines in order. -/
def buildSnippets (lines : List (List Char)) (tokens : List (List Char)) : List (List Char) :=
  (List.range lines.length).foldl (snipStep lines tokens) []

/-- `_fallback_text_search(query, document_types, max_results)`. -/
def fallbackTextSearch (files : List Char → Option (List (List Char)))
    (query : List Char) (documentTypes : List (List Char)) (maxResults : Nat) :
    List FallbackResult :=
  let tokens := queryTokens query
  if tokens.isEmpty then []
  else
    (documentTypes.foldl
      (fun acc dt =>
        match docTypeToFilename dt with
        | none => acc
        | some filename =>
          match files filename with
          | none => acc
          | some lines =>
            acc ++ ((buildSnippets lines tokens).take maxResults).map
              (fun snippet =>
                { content := snippet
                  source := sourceOfFilename filename
                  documentType := dt
                  fallback := true
                  relevance := (2 : ℚ) / 5 }))
      []).take maxResults

/-- A hit returned by `PolicyVectorStore.search` (a `{"document": ...,
"metadata": {"source": ...}}` dictionary, restricted to the fields
`search_warranty_info` reads). -/
structure VectorHit where
  document : List Char
  source : List Char

/-- The dictionary returned by `search_warranty_info`. -/
structure WarrantyResponse where
  warrantyInfo : List (List Char)
  sources : List (List Char)
  found : Bool

/-- `search_warranty_info(query, max_results)`, with the similarity-index
results passed in as the oracle `vecResults` (the value of
`vector_store.search(...)` at line 260). -/
def searchWarrantyInfo (vecResults : List VectorHit)
    (files : List Char → Option (List (List Char)))
    (query : List Char) (maxResults : Nat) : WarrantyResponse :=
  if vecResults.isEmpty then
    if (fallbackTextSearch files query ["warranty_policy".toList] maxResults).isEmpty then
      { warrantyInfo := ["No warranty information found for your query.".toList]
        sources := []
        found := false }
    else
      { warrantyInfo :=
          (fallbackTextSearch files query ["warranty_policy".toList] maxResults).map
            FallbackResult.content
        sources :=
          (fallbackTextSearch files query ["warranty_policy".toList] maxResults).map
            FallbackResult.source
        found := true }
  else
    { warrantyInfo := vecResults.map VectorHit.document
      sources := vecResults.map VectorHit.source
      found := true }

/-! ### `PhoneShopFastMCPClient.call_tool` (mcp/fastmcp_client.py)

The FastMCP protocol client is third-party.  Each attempted connection has
an outcome (`Bool`: the `Client(...)`/`ping` sequence succeeded) and each
attempted `self.client.call_tool(...)` has an outcome described by
`CallOutcome` below; a `BridgeEnv` packages the outcomes the world would
hand the bridge for one `call_tool` invocation (first connect, first call,
reconnect, retried call).  `json.loads` is folded into the outcome: a
`text` attribute either parses to a JSON value or raises
`json.JSONDecodeError`. -/

/-- JSON values as `json.loads` produces them. -/
inductive PyJson where
  | obj : List (String × PyJson) → PyJson
  | arr : List PyJson → PyJson
  | str : String → PyJson
  | num : Int → PyJson
  | bool : Bool → PyJson
  | null : PyJson

/-- Outcome of one `await self.client.call_tool(tool_name, arguments)`
(including reading `result.content`). -/
inductive CallOutcome where
  /-- the protocol call raised; `msg` is Python's `str(e)` -/
  | raises : String → CallOutcome
  /-- `result` is falsy, has no `content`, or `result.content` is empty -/
  | noContent : CallOutcome
  /-- `content[0]` has no `text` attribute; the field is `str(content)` -/
  | contentNoText : String → CallOutcome
  /-- `content[0].text` parses: `json.loads(content.text)` is this value -/
  | textJson : PyJson → CallOutcome
  /-- `content[0].text` is not JSON; the field is the raw text -/
  | textNotJson : String → CallOutcome

/-- `self._connected` and `self.client is not None`. -/
structure ClientState where
  connected : Bool
  hasClient : Bool

/-- The world's outcomes for one `call_tool` invocation. -/
structure BridgeEnv where
  /-- outcome of the connect attempt in the initial `ensure_connected`
  (consulted only when the state requires connecting) -/
  connect1 : Bool
  /-- outcome of the first protocol call -/
  call1 : CallOutcome
  /-- outcome of the connect attempt in the retry's `ensure_connected` -/
  connect2 : Bool
  /-- outcome of the retried protocol call -/
  call2 : CallOutcome

/-- What one `call_tool` invocation did: the returned value, the state left
in `self`, and how many protocol calls / connect attempts were made. -/
structure BridgeRun where
  result : PyJson
  finalState : ClientState
  callAttempts : Nat
  connectAttempts : Nat
  /-- the `self._connected = False; self.client = None` reset at lines 76-77 ran -/
  resetOnFailure : Bool

/-- Lines 60-72 / 85-95: turn a non-raising call outcome into the returned
dictionary.  (`raises` is handled by the surrounding `except` clauses and
never reaches this; the `null` is dead.) -/
def parseOutcome : CallOutcome → PyJson
  | .noContent => .obj [("error", .str "No content returned from tool")]
  | .contentNoText s => .obj [("result", .str s)]
  | .textJson j => j
  | .textNotJson s => .obj [("result", .str s)]
  | .raises _ => .null

/-- `if not self._connected or not self.client` — a connect attempt is needed. -/
def needsConnect (st : ClientState) : Bool :=
  !(st.connected && st.hasClient)

/-- `PhoneShopFastMCPClient.call_tool(tool_name, arguments)` under `env`. -/
def callTool (st : ClientState) (env : BridgeEnv) : BridgeRun :=
  if needsConnect st && !env.connect1 then
    -- initial ensure_connected failed: lines 52-53
    { result := .obj [("error", .str "Failed to connect to FastMCP server")]
      finalState := { connected := false, hasClient := false }
      callAttempts := 0
      connectAttempts := 1
      resetOnFailure := false }
  else
    let conn1 : Nat := if needsConnect st then 1 else 0
    match env.call1 with
    | .raises msg =>
      -- lines 74-77: reset, then retry once with a fresh connection
      if env.connect2 then
        match env.call2 with
        | .raises _ =>
          -- lines 96-99: the retry's exception is swallowed; the FIRST
          -- exception's message is returned.  ensure_connected left the
          -- fresh connection marked connected.
          { result := .obj [("error", .str msg)]
            finalState := { connected := true, hasClient := true }
            callAttempts := 2
            connectAttempts := conn1 + 1
            resetOnFailure := true }
        | o =>
          { result := parseOutcome o
            finalState := { connected := true, hasClient := true }
            callAttempts := 2
            connectAttempts := conn1 + 1
            resetOnFailure := true }
      else
        -- retry's ensure_connected failed: fall through to line 99
        { result := .obj [("error", .str msg)]
          finalState := { connected := false, hasClient := false }
          callAttempts := 1
          connectAttempts := conn1 + 1
          resetOnFailure := true }
    | o =>
      { result := parseOutcome o
        finalState := { connected := true, hasClient := true }
        callAttempts := 1
        connectAttempts := conn1
        resetOnFailure := false }

/-- The returned value is a Python dict (a JSON object). -/
def isObjB : PyJson → Bool
  | .obj _ => true
  | _ => false

/-- The returned dict has an `error` key. -/
def hasErrorKeyB : PyJson → Bool
  | .obj kvs => kvs.any (fun kv => kv.fst == "error")
  | _ => false

/-- The call outcome is a raised exception. -/
def isRaisesB : CallOutcome → Bool
  | .raises _ => true
  | _ => false

/-- Every JSON text the underlying client hands back in `env` parses to a
JSON object (true of this repository's server, whose tools return dicts). -/
def objOnlyB (env : BridgeEnv) : Bool :=
  (match env.call1 with
   | .textJson j => isObjB j
   | _ => true) &&
  (match env.call2 with
   | .textJson j => isObjB j
   | _ => true)

/-- The first protocol call was actually attempted (the initial
`ensure_connected` did not fail). -/
def enteredCallB (st : ClientState) (env : BridgeEnv) : Bool :=
  !(needsConnect st && !env.connect1)

/-- In `env`, the invocation as a whole fails: the initial connect fails, the
first call finds no content, or the first call raises and the retry then
fails (reconnect fails, or the retried call raises or finds no content). -/
def failsB (st : ClientState) (env : BridgeEnv) : Bool :=
  (needsConnect st && !env.connect1) ||
  (match env.call1 with
   | .raises _ =>
     !env.connect2 ||
     (match env.call2 with
      | .raises _ => true
      | .noContent => true
      | _ => false)
   | .noContent => true
   | _ => false)

/-! ### `get_phone_details` / `compare_phones` (mcp/fastmcp_server.py)

The `phones` table is modelled as a list of rows in table order; the
`fetchone()` of `SELECT ... WHERE p.model_name LIKE ?` with pattern
`%name%` is the first row whose model name contains `name`, SQLite's `LIKE`
being case-insensitive for ASCII.  Only the columns these claims read
(`model_name`, `year`, `price`) are carried; the joined feature, offer and
inventory columns do not influence which row is matched or the comparison
summary. -/

structure PhoneRow where
  modelName : List Char
  year : Int
  price : ℚ
deriving DecidableEq

/-- SQLite `column LIKE '%' || name || '%'` (ASCII case-insensitive;
`name` is assumed free of the wildcard characters, as phone names are). -/
def likeContainsB (column name : List Char) : Bool :=
  containsSub (pyLower name) (pyLower column)

/-- What `get_phone_details` returns: the error dict of line 158, or the
phone's dict. -/
inductive DetailsResult where
  | err : List Char → DetailsResult
  | found : PhoneRow → DetailsResult
deriving DecidableEq

/-- `get_phone_details(phone_name)` over table `db`. -/
def getPhoneDetails (db : List PhoneRow) (phoneName : List Char) : DetailsResult :=
  match db.find? (fun p => likeContainsB p.modelName phoneName) with
  | some p => .found p
  | none => .err ("Phone '".toList ++ phoneName ++ "' not found".toList)

/-- What `compare_phones` returns: a propagated error dict, or the
comparison dict with its `summary` fields. -/
inductive CompareResult where
  | err : List Char → CompareResult
  | ok : PhoneRow → PhoneRow → ℚ → List Char → List Char → CompareResult

/-- `compare_phones(phone1, phone2)` over table `db`: lines 237-255.
In the `ok` case the fields are phone1's row, phone2's row,
`price_difference`, `newer_phone` and `better_value`. -/
def comparePhones (db : List PhoneRow) (phone1 phone2 : List Char) : CompareResult :=
  match getPhoneDetails db phone1 with
  | .err m => .err m
  | .found p1 =>
    match getPhoneDetails db phone2 with
    | .err m => .err m
    | .found p2 =>
      .ok p1 p2 (p2.price - p1.price)
        (if p1.year > p2.year then p1.modelName else p2.modelName)
        (if p1.price < p2.price then p1.modelName else p2.modelName)

/-- The model name inside a `get_phone_details` result, if any. -/
def detailsModelName : DetailsResult → Option (List Char)
  | .err _ => none
  | .found p => some p.modelName

/-- The `summary.better_value` field of a `compare_phones` result, if any. -/
def betterValueOf : CompareResult → Option (List Char)
  | .err _ => none
  | .ok _ _ _ _ bv => some bv

/-! ### `get_phone_price` (tools/tool.py and tools/mcp_tools.py)

`tools/tool.py` reads its phone list from a JSON file; the list is the
`phones` parameter.  Python's rendering of the JSON price value
(`f"${phone['price']}"`) is abstracted as `priceRepr`.  The
`tools/mcp_tools.py` variant post-processes the formatted string produced by
`get_phone_details_sync`; its success-path detail formatter (the long
f-string of `get_phone_details_fastmcp`, irrelevant to the not-found path)
is abstracted as `detailsFormat`. -/

/-- The not-found message both `get_phone_price` variants return. -/
def priceSorryMsg (phoneName : List Char) : List Char :=
  "Sorry, I couldn't find a phone with the model name '".toList ++ phoneName ++ "'.".toList

/-- `tools/tool.py: get_phone_price(phone_name)` (lines 111-123). -/
def toolGetPhonePrice (priceRepr : ℚ → List Char) (phones : List PhoneRow)
    (phoneName : List Char) : List Char :=
  match phones.find? (fun p => pyLower p.modelName == pyLower phoneName) with
  | some p =>
    "The price of ".toList ++ p.modelName ++ " is $".toList ++ priceRepr p.price ++ ".".toList
  | none => priceSorryMsg phoneName

/-- The string `get_phone_details_sync` hands to `mcp_tools.get_phone_price`:
`get_phone_details_fastmcp` turns a `{"error": ...}` result of the server's
`get_phone_details` into `f"Error getting phone details: {result['error']}"`
(line 170) and otherwise formats the phone's details. -/
def clientDetailsString (detailsFormat : PhoneRow → List Char) (db : List PhoneRow)
    (phoneName : List Char) : List Char :=
  match getPhoneDetails db phoneName with
  | .err m => "Error getting phone details: ".toList ++ m
  | .found p => detailsFormat p

/-- Python `line.split('Price:')[1]`: everything after the first occurrence
of `Price:` up to the next occurrence or the end of the line (the detail
format contains `Price:` once per line). -/
def afterPriceMark (line : List Char) : List Char :=
  match (List.range (line.length + 1)).find?
      (fun i => ("Price:".toList).isPrefixOf (line.drop i)) with
  | some i =>
    let rest := line.drop (i + 6)
    match (List.range (rest.length + 1)).find?
        (fun j => ("Price:".toList).isPrefixOf (rest.drop j)) with
    | some j => rest.take j
    | none => rest
  | none => []

/-- `tools/mcp_tools.py: get_phone_price(phone_name)` (lines 26-52), applied
to the string `result` returned by `get_phone_details_sync`. -/
def mcpGetPhonePrice (result : List Char) (phoneName : List Char) : List Char :=
  if containsSub ("not found".toList) (pyLower result) ||
      containsSub ("error".toList) (pyLower result) then
    priceSorryMsg phoneName
  else
    match (pyLines result).find? (fun line => containsSub ("Price:".toList) line) with
    | some line =>
      "The price of ".toList ++ phoneName ++ " is ".toList
        ++ pyStrip (afterPriceMark line) ++ ".".toList
    | none => "Price information not available for '".toList ++ phoneName ++ "'.".toList

/-- The MCP-backed price tool end to end over the database. -/
def mcpGetPhonePriceFromDb (detailsFormat : PhoneRow → List Char) (db : List PhoneRow)
    (phoneName : List Char) : List Char :=
  mcpGetPhonePrice (clientDetailsString detailsFormat db phoneName) phoneName

/-- The opening of `get_phone_details_fastmcp`'s success formatting
(fastmcp_client.py lines 177-178), restricted to the columns `PhoneRow`
carries: the headline `f"📱 **{model_name}** ({year})\n\n"` followed by the
price line `f"💰 **Price:** ${price}\n"`; Python's renderings of the year
and price values are oracle parameters.  The format's further lines
(chipset, RAM, …) all sit below this first line containing `Price:`, which
is the one `mcp_tools.get_phone_price` reads. -/
def detailsHeadline (yearRepr : Int → List Char) (priceRepr : ℚ → List Char)
    (p : PhoneRow) : List Char :=
  "📱 **".toList ++ p.modelName ++ "** (".toList ++ yearRepr p.year
    ++ ")\n\n💰 **Price:** $".toList ++ priceRepr p.price ++ ['\n']

/-! ### `get_current_time` (weather_agent/agent.py, lines 61-84)

`tz_identifier` is a Python local variable assigned only inside the
`if city.lower() == "new york"` branch, and that branch returns before the
assignment is used; on every other input the statement
`tz = ZoneInfo(tz_identifier)` reads an unassigned local and raises
`UnboundLocalError`.  The embedding makes the three conceivable outcomes
explicit: a successful time report, a returned status-error dict, and a
raised exception. -/

inductive TimeOutcome where
  /-- the function returns a success report (no code path produces this) -/
  | ok : List Char → TimeOutcome
  /-- the function returns `{"status": "error", "error_message": msg}` -/
  | errorDict : List Char → TimeOutcome
  /-- the function raises; the field names the exception -/
  | raised : List Char → TimeOutcome

/-- `get_current_time(city)`. -/
def getCurrentTime (city : List Char) : TimeOutcome :=
  if pyLower city = "new york".toList then
    -- tz_identifier = "America/New_York" is assigned and never used:
    -- the error dict is returned unconditionally first.
    .errorDict ("Sorry, I don't have timezone information for ".toList ++ city ++ ".".toList)
  else
    .raised "UnboundLocalError: tz_identifier".toList

/-! ### Concrete inputs used by the counterexamples and witnesses -/

/-- A 64-character "word" of pairwise distinct non-ASCII letters. -/
def longWord : List Char :=
  (List.range 64).map (fun i => Char.ofNat (192 + i))

/-- A 509-character document: 444 letters, a space, then `longWord`.
`longWord` straddles the first chunk boundary (position 500) and starts
more than `overlap` characters before it. -/
def longWordText : List Char :=
  List.replicate 444 'a' ++ (' ' :: longWord)

/-- A phone table in which a longer model name containing the queried one
comes first in table order. -/
def shadowDb : List PhoneRow :=
  [⟨"iPhone 15 Pro".toList, 2023, 1099⟩, ⟨"iPhone 15".toList, 2023, 799⟩]

/-- A phone table containing both phones of the spec's comparison example,
and additionally a more expensive phone whose model name contains
`iPhone 15`. -/
def compareDb : List PhoneRow :=
  [⟨"iPhone 15 Pro".toList, 2023, 2000⟩,
   ⟨"iPhone 15".toList, 2023, 800⟩,
   ⟨"Samsung Galaxy S23".toList, 2023, 900⟩]

/-- A small table without shadowing names. -/
def plainDb : List PhoneRow :=
  [⟨"iPhone 15".toList, 2023, 799⟩, ⟨"Samsung Galaxy S23".toList, 2023, 899⟩]

/-- A concrete data directory holding only a two-line warranty policy file. -/
def warrantyFiles : List Char → Option (List (List Char)) := fun fname =>
  if fname = "warranty_policy.md".toList then
    some ["# Warranty Policy".toList, "All phones include a 12-month warranty.".toList]
  else none

/-! ## Theorems -/

/-! ### Generic helper lemmas -/

theorem toNat_ofNat_valid (n : Nat) (h : n.isValidChar) : (Char.ofNat n).toNat = n := by
  rw [Char.ofNat, dif_pos h]
  simp [Char.ofNatAux, Char.toNat, UInt32.toNat]

theorem pyIsSpace_toLower (c : Char) : pyIsSpace c.toLower = pyIsSpace c := by
  have hdef : c.toLower = if c.toNat ≥ 65 ∧ c.toNat ≤ 90 then Char.ofNat (c.toNat + 32) else c :=
    rfl
  rw [hdef]
  by_cases h : c.toNat ≥ 65 ∧ c.toNat ≤ 90
  · rw [if_pos h]
    have hval : (Char.ofNat (c.toNat + 32)).toNat = c.toNat + 32 :=
      toNat_ofNat_valid _ (Or.inl (by omega))
    have hl : pyIsSpace (Char.ofNat (c.toNat + 32)) = false := by
      rw [Bool.eq_false_iff]
      intro hx
      simp only [pyIsSpace, hval, Bool.or_eq_true, Nat.beq_eq_true_eq] at hx
      omega
    have hr : pyIsSpace c = false := by
      rw [Bool.eq_false_iff]
      intro hx
      simp only [pyIsSpace, Bool.or_eq_true, Nat.beq_eq_true_eq] at hx
      omega
    rw [hl, hr]
  · rw [if_neg h]

theorem mem_of_getLast?_eq_some {α : Type} {l : List α} {x : α}
    (h : l.getLast? = some x) : x ∈ l := by
  obtain ⟨hne, hx⟩ := List.mem_getLast?_eq_getLast (Option.mem_def.mpr h)
  exact hx ▸ List.getLast_mem hne

theorem containsSub_iff (pat l : List Char) : containsSub pat l = true ↔ pat <:+: l := by
  unfold containsSub
  rw [List.any_eq_true]
  constructor
  · rintro ⟨i, _, hp⟩
    obtain ⟨t, ht⟩ := ( List.isPrefixOf_iff_prefix).mp hp
    exact ⟨l.take i, t, by rw [List.append_assoc, ht, List.take_append_drop]⟩
  · rintro ⟨s, t, rfl⟩
    refine ⟨s.length, ?_, ?_⟩
    · rw [List.mem_range]
      simp [List.length_append]
      omega
    · rw [ List.isPrefixOf_iff_prefix, List.append_assoc, List.drop_left]
      exact List.prefix_append pat t

theorem ne_nil_of_sub {w l : List Char} (hw : w ≠ []) (h : w <:+: l) : l ≠ [] := by
  rintro rfl
  exact hw (List.eq_nil_of_infix_nil h)

theorem sub_dropWhile {p : Char → Bool} {w l : List Char}
    (hns : ∀ c ∈ w, p c = false) (hw : w ≠ []) (h : w <:+: l) :
    w <:+: l.dropWhile p := by
  obtain ⟨s, t, rfl⟩ := h
  induction s with
  | nil =>
    obtain ⟨c, w', rfl⟩ : ∃ c w', w = c :: w' := by
      cases w with
      | nil => exact absurd rfl hw
      | cons c w' => exact ⟨c, w', rfl⟩
    rw [List.nil_append, List.cons_append, List.dropWhile_cons_of_neg]
    · exact ⟨[], t, rfl⟩
    · simp [hns c (List.mem_cons_self c w')]
  | cons x s' ih =>
    by_cases hx : p x = true
    · rw [List.cons_append, List.cons_append, List.dropWhile_cons_of_pos hx]
      exact ih
    · rw [List.cons_append, List.cons_append,
        List.dropWhile_cons_of_neg (by simp [hx])]
      exact ⟨x :: s', t, rfl⟩

theorem sub_pyStrip {w l : List Char} (hw : w ≠ [])
    (hns : ∀ c ∈ w, pyIsSpace c = false) (h : w <:+: l) : w <:+: pyStrip l := by
  unfold pyStrip
  have h1 : w <:+: l.dropWhile pyIsSpace := sub_dropWhile hns hw h
  have h2 : w.reverse <:+: (l.dropWhile pyIsSpace).reverse := List.reverse_infix.mpr h1
  have h3 : w.reverse <:+: (l.dropWhile pyIsSpace).reverse.dropWhile pyIsSpace :=
    sub_dropWhile (fun c hc => hns c (List.mem_reverse.mp hc)) (by simpa using hw) h2
  simpa using List.reverse_infix.mpr h3

theorem pyStrip_ne_nil {l : List Char} (h : ∃ c ∈ l, pyIsSpace c = false) :
    pyStrip l ≠ [] := by
  intro hnil
  obtain ⟨c, hc, hcs⟩ := h
  have h1 : (l.dropWhile pyIsSpace).reverse.dropWhile pyIsSpace = [] := by
    have := congrArg List.reverse hnil
    simpa [pyStrip] using this
  have h2 : ∀ a ∈ l.dropWhile pyIsSpace, pyIsSpace a = true := by
    intro a ha
    exact List.dropWhile_eq_nil_iff.mp h1 a (List.mem_reverse.mpr ha)
  have h3 : ∀ a ∈ l, pyIsSpace a = true := by
    intro a ha
    rw [← List.takeWhile_append_dropWhile pyIsSpace l] at ha
    rcases List.mem_append.mp ha with h' | h'
    · exact List.mem_takeWhile_imp h'
    · exact h2 a h'
  rw [h3 c hc] at hcs
  exact absurd hcs (by simp)

/-! ### Lemmas about the id store -/

theorem mem_insertId_of_mem {s : List (List Char)} {x : List Char} (id : List Char)
    (h : x ∈ s) : x ∈ insertId s id := by
  unfold insertId
  split
  · exact h
  · exact List.mem_append_left _ h

theorem mem_insertId_self (s : List (List Char)) (id : List Char) : id ∈ insertId s id := by
  unfold insertId
  split
  · assumption
  · simp

theorem mem_foldl_insertId_of_mem :
    ∀ (L : List (List Char)) (s : List (List Char)) (x : List Char),
      x ∈ s → x ∈ L.foldl insertId s := by
  intro L
  induction L with
  | nil => intro s x h; exact h
  | cons a L ih =>
    intro s x h
    exact ih (insertId s a) x (mem_insertId_of_mem a h)

theorem mem_foldl_insertId_of_mem_list :
    ∀ (L : List (List Char)) (s : List (List Char)) (x : List Char),
      x ∈ L → x ∈ L.foldl insertId s := by
  intro L
  induction L with
  | nil => intro s x h; cases h
  | cons a L ih =>
    intro s x h
    rcases List.mem_cons.mp h with rfl | h'
    · exact mem_foldl_insertId_of_mem L (insertId s x) x (mem_insertId_self s x)
    · exact ih (insertId s a) x h'

theorem foldl_insertId_of_all_mem :
    ∀ (L : List (List Char)) (s : List (List Char)),
      (∀ x ∈ L, x ∈ s) → L.foldl insertId s = s := by
  intro L
  induction L with
  | nil => intro s _; rfl
  | cons a L ih =>
    intro s h
    have ha : insertId s a = s := by
      unfold insertId
      rw [if_pos (h a (List.mem_cons_self a L))]
    rw [List.foldl_cons, ha]
    exact ih s (fun x hx => h x (List.mem_cons_of_mem a hx))

/-- C5: Re-adding the same source content to the document retrieval store
produces identical chunk ids — each id is the deterministic function
`generateDocId` of the source identifier, chunk index and chunk content —
so a repeated `add_document` of identical content leaves the set of stored
ids unchanged. -/
theorem addDocument_idempotent (hash : List Char → List Char)
    (content source : List Char) (store : List (List Char)) :
    addDocument hash content source (addDocument hash content source store) =
      addDocument hash content source store := by
  unfold addDocument
  exact foldl_insertId_of_all_mem _ _
    (fun x hx => mem_foldl_insertId_of_mem_list _ store x hx)

/-- C10: the weather agent's `get_current_time` never returns a success
report for any city: for "New York" (case-insensitively) it returns the
status-error dictionary before using the timezone it computed, and for
every other city it raises `UnboundLocalError`, the timezone variable being
assigned only in the New York branch. -/
theorem getCurrentTime_never_ok (city : List Char) :
    (∀ r, getCurrentTime city ≠ TimeOutcome.ok r) ∧
    (pyLower city = "new york".toList →
      getCurrentTime city =
        TimeOutcome.errorDict
          ("Sorry, I don't have timezone information for ".toList ++ city ++ ".".toList)) ∧
    (pyLower city ≠ "new york".toList →
      getCurrentTime city = TimeOutcome.raised "UnboundLocalError: tz_identifier".toList) := by
  refine ⟨?_, ?_, ?_⟩
  · intro r
    unfold getCurrentTime
    by_cases h : pyLower city = "new york".toList
    · rw [if_pos h]
      simp
    · rw [if_neg h]
      simp
  · intro h
    unfold getCurrentTime
    rw [if_pos h]
  · intro h
    unfold getCurrentTime
    rw [if_neg h]

/-- Witness for C10 at the concrete cities "New York" and "London". -/
theorem getCurrentTime_never_ok_witness :
    getCurrentTime "New York".toList =
      TimeOutcome.errorDict
        ("Sorry, I don't have timezone information for ".toList ++ "New York".toList
          ++ ".".toList) ∧
    getCurrentTime "London".toList =
      TimeOutcome.raised "UnboundLocalError: tz_identifier".toList :=
  ⟨(getCurrentTime_never_ok "New York".toList).2.1 (by decide),
   (getCurrentTime_never_ok "London".toList).2.2 (by decide)⟩

/-! ### The client bridge (C1, C2) -/

/-- C1 (amended): `call_tool` never raises (it is a total function of the
world's outcomes) and returns the parsed JSON of the tool's text; whenever
every JSON text the underlying client yields parses to an object — as the
repository's server tools, which return dicts, guarantee — the returned
value is a mapping, and whenever the invocation fails (connection error,
exceptions on both attempts, missing content) the returned mapping carries
an `error` key.  When the tool's text parses to a non-object JSON value,
that value itself is returned, so the result is then not a mapping. -/
theorem callTool_returns_mapping (st : ClientState) (env : BridgeEnv) :
    (objOnlyB env = true → isObjB (callTool st env).result = true) ∧
    (failsB st env = true → hasErrorKeyB (callTool st env).result = true) := by
  obtain ⟨conn, hasC⟩ := st
  obtain ⟨c1, o1, c2, o2⟩ := env
  constructor
  · intro h
    cases conn <;> cases hasC <;> cases c1 <;> cases c2 <;> cases o1 <;> cases o2 <;>
      simp_all [callTool, needsConnect, objOnlyB, parseOutcome, isObjB, hasErrorKeyB]
  · intro h
    cases conn <;> cases hasC <;> cases c1 <;> cases c2 <;> cases o1 <;> cases o2 <;>
      simp_all [callTool, needsConnect, failsB, parseOutcome, isObjB, hasErrorKeyB]

/-- Witness for C1 (amended) at concrete worlds: an object-only success run
returns a mapping, and a run in which both attempts raise returns an error
mapping. -/
theorem callTool_returns_mapping_witness :
    isObjB (callTool ⟨false, false⟩
      ⟨true, CallOutcome.textJson (PyJson.obj [("results", PyJson.arr [])]), true,
        CallOutcome.noContent⟩).result = true ∧
    hasErrorKeyB (callTool ⟨true, true⟩
      ⟨true, CallOutcome.raises "connection reset", false,
        CallOutcome.noContent⟩).result = true :=
  ⟨(callTool_returns_mapping _ _).1 (by decide),
   (callTool_returns_mapping _ _).2 (by decide)⟩

/-- C1 counterexample: when the underlying tool's text parses to the JSON
array `[]` (a malformed, non-dict response), `call_tool` returns that array
unchanged — not a mapping, and not a mapping with an `error` key either. -/
theorem callTool_nonobj_counterexample :
    (callTool ⟨false, false⟩
      ⟨true, CallOutcome.textJson (PyJson.arr []), true, CallOutcome.noContent⟩).result =
        PyJson.arr [] ∧
    isObjB (PyJson.arr []) = false :=
  ⟨rfl, rfl⟩

/-- C2: the bridge makes at most two protocol call attempts per invocation;
a second attempt happens only when the first raised; whenever the first
call raised (and was actually reached), the connection handle is reset and,
if the fresh reconnect succeeds, the call is retried exactly once; and when
that single retry also fails — reconnect failure or a second exception —
the returned mapping carries an `error` key with no further attempts. -/
theorem callTool_retries_once (st : ClientState) (env : BridgeEnv) :
    (callTool st env).callAttempts ≤ 2 ∧
    ((callTool st env).callAttempts = 2 → isRaisesB env.call1 = true) ∧
    (isRaisesB env.call1 = true → enteredCallB st env = true →
      (callTool st env).resetOnFailure = true ∧
      (env.connect2 = true → (callTool st env).callAttempts = 2) ∧
      ((!env.connect2 || isRaisesB env.call2) = true →
        hasErrorKeyB (callTool st env).result = true)) := by
  obtain ⟨conn, hasC⟩ := st
  obtain ⟨c1, o1, c2, o2⟩ := env
  cases conn <;> cases hasC <;> cases c1 <;> cases c2 <;> cases o1 <;> cases o2 <;>
    simp_all [callTool, needsConnect, enteredCallB, isRaisesB, parseOutcome, hasErrorKeyB]

/-- Witness for C2 at a concrete world in which both attempts raise. -/
theorem callTool_retries_once_witness :
    (callTool ⟨false, false⟩
      ⟨true, CallOutcome.raises "boom", true, CallOutcome.raises "again"⟩).resetOnFailure =
        true ∧
    (callTool ⟨false, false⟩
      ⟨true, CallOutcome.raises "boom", true, CallOutcome.raises "again"⟩).callAttempts = 2 ∧
    hasErrorKeyB (callTool ⟨false, false⟩
      ⟨true, CallOutcome.raises "boom", true, CallOutcome.raises "again"⟩).result = true := by
  have h := (callTool_retries_once ⟨false, false⟩
    ⟨true, CallOutcome.raises "boom", true, CallOutcome.raises "again"⟩).2.2
    (by decide) (by decide)
  exact ⟨h.1, h.2.1 rfl, h.2.2 (by decide)⟩

/-! ### The server's phone lookups (C7, C8) -/

theorem find?_eq_some_of_exists {α : Type} {p : α → Bool} {l : List α}
    (h : ∃ x ∈ l, p x = true) : ∃ y, l.find? p = some y := by
  have hs := List.find?_isSome.mpr h
  exact Option.isSome_iff_exists.mp hs

theorem likeContainsB_self {name : List Char} : likeContainsB name name = true := by
  unfold likeContainsB
  exact (containsSub_iff _ _).mpr (List.infix_refl _)

/-- C7 (amended): for every phone name present in the store,
`get_phone_details` returns a phone mapping (never the not-found error)
whose model name contains the queried name case-insensitively; the returned
model name equals the queried name whenever the queried name is the only
model name in the store containing it — but the first containing row is
returned, so a longer name earlier in table order can shadow the exact
one. -/
theorem getPhoneDetails_contains (db : List PhoneRow) (name : List Char)
    (h : ∃ p ∈ db, p.modelName = name) :
    ∃ q, getPhoneDetails db name = DetailsResult.found q ∧
      likeContainsB q.modelName name = true ∧
      ((∀ r ∈ db, likeContainsB r.modelName name = true → r.modelName = name) →
        q.modelName = name) := by
  obtain ⟨p, hp, hpn⟩ := h
  have hex : ∃ x ∈ db, (fun r => likeContainsB r.modelName name) x = true := by
    refine ⟨p, hp, ?_⟩
    show likeContainsB p.modelName name = true
    rw [hpn]
    exact likeContainsB_self
  obtain ⟨q, hq⟩ := find?_eq_some_of_exists hex
  have hpred : likeContainsB q.modelName name = true := by
    have hb := List.find?_some hq
    simpa using hb
  have hmem : q ∈ db := List.mem_of_find?_eq_some hq
  refine ⟨q, ?_, hpred, fun hall => hall q hmem hpred⟩
  unfold getPhoneDetails
  rw [hq]

/-- Witness for C7 (amended) at a store without shadowing names. -/
theorem getPhoneDetails_contains_witness :
    detailsModelName (getPhoneDetails plainDb "Samsung Galaxy S23".toList) =
      some "Samsung Galaxy S23".toList := by
  obtain ⟨q, hq, _, hexact⟩ :=
    getPhoneDetails_contains plainDb "Samsung Galaxy S23".toList (by decide)
  rw [hq]
  simp [detailsModelName, hexact (by decide)]

/-- C7 counterexample: `iPhone 15` is present in the store, but the row
returned for the query `iPhone 15` is `iPhone 15 Pro`, the earlier row
whose name contains the query, so the returned mapping does not carry the
queried exact model name. -/
theorem getPhoneDetails_exact_counterexample :
    (∃ p ∈ shadowDb, p.modelName = "iPhone 15".toList) ∧
    detailsModelName (getPhoneDetails shadowDb "iPhone 15".toList) ≠
      some "iPhone 15".toList := by
  decide

/-- C8 (amended): when both queried names resolve to rows (first
case-insensitive substring match), `summary.better_value` is the model name
of the resolved row with the strictly lower price, the second phone's name
on ties; this is the queried lower-priced model whenever each queried name
resolves to the row bearing exactly that name. -/
theorem comparePhones_better_value (db : List PhoneRow) (n1 n2 : List Char)
    (p1 p2 : PhoneRow) (h1 : getPhoneDetails db n1 = DetailsResult.found p1)
    (h2 : getPhoneDetails db n2 = DetailsResult.found p2) :
    (p1.price < p2.price →
      betterValueOf (comparePhones db n1 n2) = some p1.modelName) ∧
    (¬p1.price < p2.price →
      betterValueOf (comparePhones db n1 n2) = some p2.modelName) := by
  have hc : comparePhones db n1 n2 =
      CompareResult.ok p1 p2 (p2.price - p1.price)
        (if p1.year > p2.year then p1.modelName else p2.modelName)
        (if p1.price < p2.price then p1.modelName else p2.modelName) := by
    unfold comparePhones
    rw [h1, h2]
  rw [hc]
  constructor
  · intro hlt
    simp [betterValueOf, if_pos hlt]
  · intro hge
    simp [betterValueOf, if_neg hge]

/-- Witness for C8 (amended) at the spec's example store. -/
theorem comparePhones_better_value_witness :
    betterValueOf (comparePhones plainDb "iPhone 15".toList "Samsung Galaxy S23".toList) =
      some "iPhone 15".toList := by
  have h := comparePhones_better_value plainDb "iPhone 15".toList "Samsung Galaxy S23".toList
    ⟨"iPhone 15".toList, 2023, 799⟩ ⟨"Samsung Galaxy S23".toList, 2023, 899⟩
    (by decide) (by decide)
  exact h.1 (by norm_num)

/-- C8 counterexample: both `iPhone 15` and `Samsung Galaxy S23` are in the
store and the `iPhone 15` row is strictly cheaper, yet `better_value` is not
`iPhone 15`: the query `iPhone 15` resolved to the more expensive
`iPhone 15 Pro` row first. -/
theorem comparePhones_better_value_counterexample :
    (∃ p ∈ compareDb, p.modelName = "iPhone 15".toList) ∧
    (∃ p ∈ compareDb, p.modelName = "Samsung Galaxy S23".toList) ∧
    (∀ p ∈ compareDb, p.modelName = "iPhone 15".toList →
      ∀ q ∈ compareDb, q.modelName = "Samsung Galaxy S23".toList → p.price < q.price) ∧
    betterValueOf (comparePhones compareDb "iPhone 15".toList "Samsung Galaxy S23".toList) ≠
      some "iPhone 15".toList := by
  decide

/-! ### The price tools' not-found path (C9) -/

theorem pyLower_append (a b : List Char) : pyLower (a ++ b) = pyLower a ++ pyLower b := by
  unfold pyLower
  exact List.map_append _ a b

/-- C9 (amended): the local `tools/tool.py` `get_phone_price` returns the
"Sorry, I couldn't find a phone …" message whenever no stored model name
equals the queried name (case-insensitively); the MCP-backed
`tools/mcp_tools.py` variant returns it whenever no stored model name even
contains the queried name, the server's not-found error dict being
formatted into an error string that the tool detects.  An absent name that
is a substring of a stored model name is instead resolved by the server's
`LIKE '%name%'` lookup to that phone and answered with a price message.
Both variants are total functions: no exception reaches the agent
framework. -/
theorem getPhonePrice_not_found (priceRepr : ℚ → List Char)
    (detailsFormat : PhoneRow → List Char) (phones db : List PhoneRow)
    (name : List Char) :
    ((∀ p ∈ phones, pyLower p.modelName ≠ pyLower name) →
      toolGetPhonePrice priceRepr phones name = priceSorryMsg name) ∧
    ((∀ p ∈ db, likeContainsB p.modelName name = false) →
      mcpGetPhonePriceFromDb detailsFormat db name = priceSorryMsg name) := by
  constructor
  · intro h
    unfold toolGetPhonePrice
    have hnone : phones.find? (fun p => pyLower p.modelName == pyLower name) = none := by
      rw [List.find?_eq_none]
      intro x hx
      simp only [beq_iff_eq]
      exact h x hx
    rw [hnone]
  · intro h
    have hnone : db.find? (fun p => likeContainsB p.modelName name) = none := by
      rw [List.find?_eq_none]
      intro x hx
      simp [h x hx]
    have herr : getPhoneDetails db name =
        DetailsResult.err ("Phone '".toList ++ name ++ "' not found".toList) := by
      unfold getPhoneDetails
      rw [hnone]
    unfold mcpGetPhonePriceFromDb clientDetailsString
    rw [herr]
    unfold mcpGetPhonePrice
    have hcond : (containsSub ("not found".toList)
        (pyLower ("Error getting phone details: ".toList ++
          ("Phone '".toList ++ name ++ "' not found".toList))) ||
      containsSub ("error".toList)
        (pyLower ("Error getting phone details: ".toList ++
          ("Phone '".toList ++ name ++ "' not found".toList)))) = true := by
      have hright : containsSub ("error".toList)
          (pyLower ("Error getting phone details: ".toList ++
            ("Phone '".toList ++ name ++ "' not found".toList))) = true := by
        rw [containsSub_iff, pyLower_append]
        have hconst : pyLower ("Error getting phone details: ".toList) =
            "error".toList ++ " getting phone details: ".toList := by decide
        rw [hconst, List.append_assoc]
        exact ⟨[], _, rfl⟩
      rw [hright, Bool.or_true]
    rw [if_pos hcond]

/-- Witness for C9 at the concrete unknown name "Nokia 3310". -/
theorem getPhonePrice_not_found_witness :
    toolGetPhonePrice (fun _ => []) plainDb "Nokia 3310".toList =
      priceSorryMsg "Nokia 3310".toList ∧
    mcpGetPhonePriceFromDb (fun _ => []) plainDb "Nokia 3310".toList =
      priceSorryMsg "Nokia 3310".toList :=
  ⟨(getPhonePrice_not_found (fun _ => []) (fun _ => []) plainDb plainDb
      "Nokia 3310".toList).1 (by decide),
   (getPhonePrice_not_found (fun _ => []) (fun _ => []) plainDb plainDb
      "Nokia 3310".toList).2 (by decide)⟩

/-- C9 counterexample: `iPhone` is not a model name of the store (no stored
name equals it, case-insensitively), yet the MCP-backed `get_phone_price`
does not answer with a not-found message: the server's `LIKE '%iPhone%'`
lookup resolves the query to the `iPhone 15` row, the client formats its
details (year rendered `2023`, price rendered `799.0`, as Python prints
them for that row), and the tool parses the `Price:` line into a price
message — reproducing `test_clean_agent.py`'s `get_phone_price("iPhone")`
call. -/
theorem mcpGetPhonePrice_substring_counterexample :
    (∀ p ∈ plainDb, pyLower p.modelName ≠ pyLower "iPhone".toList) ∧
    mcpGetPhonePriceFromDb
        (detailsHeadline (fun _ => "2023".toList) (fun _ => "799.0".toList))
        plainDb "iPhone".toList =
      "The price of iPhone is ** $799.0.".toList ∧
    ¬containsSub ("not found".toList)
        (pyLower (mcpGetPhonePriceFromDb
          (detailsHeadline (fun _ => "2023".toList) (fun _ => "799.0".toList))
          plainDb "iPhone".toList)) = true := by
  decide

/-! ### The retrieval fallback (C6) -/

theorem pyWordsAux_props :
    ∀ (s acc : List Char), (∀ c ∈ acc, pyIsSpace c = false) →
      ∀ w ∈ pyWordsAux acc s, w ≠ [] ∧ ∀ c ∈ w, pyIsSpace c = false := by
  intro s
  induction s with
  | nil =>
    intro acc hacc w hw
    unfold pyWordsAux at hw
    split at hw
    · cases hw
    · rename_i hne
      rw [List.mem_singleton] at hw
      subst hw
      refine ⟨by simpa [List.isEmpty_iff] using hne, ?_⟩
      intro c hc
      exact hacc c (List.mem_reverse.mp hc)
  | cons c cs ih =>
    intro acc hacc w hw
    unfold pyWordsAux at hw
    split at hw
    · rename_i hsp
      split at hw
      · exact ih [] (by intro x hx; cases hx) w hw
      · rename_i hne
        rcases List.mem_cons.mp hw with rfl | hw'
        · refine ⟨by simpa [List.isEmpty_iff] using hne, ?_⟩
          intro x hx
          exact hacc x (List.mem_reverse.mp hx)
        · exact ih [] (by intro x hx; cases hx) w hw'
    · rename_i hsp
      refine ih (c :: acc) ?_ w hw
      intro x hx
      rcases List.mem_cons.mp hx with rfl | hx'
      · simpa using hsp
      · exact hacc x hx'

theorem queryTokens_props {query t : List Char} (ht : t ∈ queryTokens query) :
    t ≠ [] ∧ ∀ c ∈ t, pyIsSpace c = false := by
  obtain ⟨w, hw, rfl⟩ := List.mem_map.mp ht
  obtain ⟨hne, hns⟩ := pyWordsAux_props query [] (by intro x hx; cases hx) w hw
  constructor
  · simp [pyLower, hne]
  · intro c hc
    obtain ⟨d, hd, rfl⟩ := List.mem_map.mp hc
    rw [pyIsSpace_toLower]
    exact hns d hd

theorem line_has_nonspace {t line : List Char} (hne : t ≠ [])
    (hns : ∀ c ∈ t, pyIsSpace c = false)
    (hsub : containsSub t (pyLower line) = true) :
    ∃ c ∈ line, pyIsSpace c = false := by
  obtain ⟨b, M, rfl⟩ := List.exists_cons_of_ne_nil hne
  have hb : b ∈ pyLower line :=
    ((containsSub_iff _ _).mp hsub).subset (List.mem_cons_self b M)
  obtain ⟨c, hc, hcb⟩ := List.mem_map.mp hb
  refine ⟨c, hc, ?_⟩
  rw [← pyIsSpace_toLower, hcb]
  exact hns b (List.mem_cons_self b M)

theorem mem_joinNL {x : Char} {l : List Char} {L : List (List Char)}
    (hx : x ∈ l) (hl : l ∈ L) : x ∈ joinNL L := by
  induction L with
  | nil => cases hl
  | cons a L ih =>
    cases L with
    | nil =>
      rw [List.mem_singleton] at hl
      subst hl
      exact hx
    | cons b M =>
      rcases List.mem_cons.mp hl with rfl | hl'
      · exact List.mem_append_left _ hx
      · exact List.mem_append_right _ (List.mem_cons_of_mem _ (ih hl'))

theorem self_mem_window (lines : List (List Char)) (i : Nat) (h : i < lines.length) :
    lines.getD i [] ∈ (lines.drop (i - 2)).take (min lines.length (i + 3) - (i - 2)) := by
  have hj : i - (i - 2) < (lines.drop (i - 2)).length := by
    rw [List.length_drop]
    omega
  have hjt : i - (i - 2) <
      ((lines.drop (i - 2)).take (min lines.length (i + 3) - (i - 2))).length := by
    rw [List.length_take, List.length_drop]
    omega
  have hval : ((lines.drop (i - 2)).take (min lines.length (i + 3) - (i - 2)))[i - (i - 2)] =
      lines.getD i [] := by
    rw [List.getElem_take, List.getElem_drop]
    rw [List.getD_eq_getElem lines [] h]
    congr 1
    omega
  rw [← hval]
  exact List.getElem_mem _

theorem snippetAt_ne_nil {lines : List (List Char)} {i : Nat} (h : i < lines.length)
    {c : Char} (hc : c ∈ lines.getD i []) (hcs : pyIsSpace c = false) :
    snippetAt lines i ≠ [] := by
  unfold snippetAt
  exact pyStrip_ne_nil ⟨c, mem_joinNL hc (self_mem_window lines i h), hcs⟩

theorem mem_snipStep_of_mem {lines tokens acc : List (List Char)} {s : List Char}
    (i : Nat) (h : s ∈ acc) : s ∈ snipStep lines tokens acc i := by
  unfold snipStep
  split
  · split
    · exact List.mem_append_left _ h
    · exact h
  · exact h

theorem mem_foldl_snipStep_of_mem (lines tokens : List (List Char)) :
    ∀ (is : List Nat) (acc : List (List Char)) (s : List Char),
      s ∈ acc → s ∈ is.foldl (snipStep lines tokens) acc := by
  intro is
  induction is with
  | nil => intro acc s h; exact h
  | cons i is ih =>
    intro acc s h
    exact ih _ s (mem_snipStep_of_mem i h)

theorem foldl_snipStep_shape (lines tokens : List (List Char)) :
    ∀ (is : List Nat) (acc : List (List Char)),
      (∀ s ∈ acc, ∃ i, i < lines.length ∧ snippetGuard lines tokens i = true ∧
        s = snippetAt lines i) →
      (∀ i ∈ is, i < lines.length) →
      ∀ s ∈ is.foldl (snipStep lines tokens) acc,
        ∃ i, i < lines.length ∧ snippetGuard lines tokens i = true ∧
          s = snippetAt lines i := by
  intro is
  induction is with
  | nil => intro acc hacc _ s hs; exact hacc s hs
  | cons i is ih =>
    intro acc hacc his s hs
    refine ih _ ?_ (fun j hj => his j (List.mem_cons_of_mem i hj)) s hs
    intro x hx
    unfold snipStep at hx
    split at hx
    · rename_i hg
      split at hx
      · rcases List.mem_append.mp hx with hx' | hx'
        · exact hacc x hx'
        · rw [List.mem_singleton] at hx'
          exact ⟨i, his i (List.mem_cons_self i is), hg, hx'⟩
      · exact hacc x hx
    · exact hacc x hx

theorem foldl_snipStep_ne_nil (lines tokens : List (List Char)) :
    ∀ (is : List Nat) (acc : List (List Char)) (i : Nat), i ∈ is →
      snippetGuard lines tokens i = true → snippetAt lines i ≠ [] →
      is.foldl (snipStep lines tokens) acc ≠ [] := by
  intro is
  induction is with
  | nil => intro acc i h; cases h
  | cons j js ih =>
    intro acc i hmem hg hne
    rcases List.mem_cons.mp hmem with rfl | hmem'
    · have hstep : snipStep lines tokens acc i ≠ [] := by
        unfold snipStep
        rw [if_pos hg]
        split
        · simp
        · rename_i hcond
          rcases not_and_or.mp hcond with hemp | hmemacc
          · exact absurd (by simpa [List.isEmpty_iff] using hemp) hne
          · exact List.ne_nil_of_mem (not_not.mp hmemacc)
      obtain ⟨s, hs⟩ := List.exists_mem_of_ne_nil _ hstep
      exact List.ne_nil_of_mem (mem_foldl_snipStep_of_mem lines tokens js _ s hs)
    · exact ih _ i hmem' hg hne

theorem take_ne_nil {α : Type} {n : Nat} {l : List α} (hn : n ≠ 0) (hl : l ≠ []) :
    l.take n ≠ [] := by
  cases l with
  | nil => exact absurd rfl hl
  | cons a l =>
    cases n with
    | zero => exact absurd rfl hn
    | succ m => simp

/-- Evaluating `_fallback_text_search` at the single document type
`warranty_policy` (the call `search_warranty_info` makes). -/
theorem fallbackWarranty_eq (files : List Char → Option (List (List Char)))
    (query : List Char) (maxResults : Nat) :
    fallbackTextSearch files query ["warranty_policy".toList] maxResults =
      if (queryTokens query).isEmpty then []
      else
        ((match files "warranty_policy.md".toList with
          | none => []
          | some lines =>
            ((buildSnippets lines (queryTokens query)).take maxResults).map
              (fun snippet =>
                { content := snippet
                  source := sourceOfFilename "warranty_policy.md".toList
                  documentType := "warranty_policy".toList
                  fallback := true
                  relevance := (2 : ℚ) / 5 })) : List FallbackResult).take maxResults :=
  rfl

/-- C6: on a similarity miss for the warranty document type, the keyword
fallback runs over the warranty file's lines; it returns at most the
requested number of results, each flagged `fallback` with the nominal
relevance `0.4` and carrying a stripped window `lines[i-2..i+3]` around
some line `i` containing a query token; and whenever some query token does
occur in the file, `search_warranty_info` still reports `found`. -/
theorem searchWarranty_fallback (files : List Char → Option (List (List Char)))
    (query : List Char) (maxResults : Nat) :
    (fallbackTextSearch files query ["warranty_policy".toList] maxResults).length
        ≤ maxResults ∧
    (∀ r ∈ fallbackTextSearch files query ["warranty_policy".toList] maxResults,
      r.fallback = true ∧ r.relevance = (2 : ℚ) / 5 ∧
      r.documentType = "warranty_policy".toList ∧
      ∃ lines, files "warranty_policy.md".toList = some lines ∧
        ∃ i, i < lines.length ∧ snippetGuard lines (queryTokens query) i = true ∧
          r.content = snippetAt lines i) ∧
    (0 < maxResults →
      (∃ lines, files "warranty_policy.md".toList = some lines ∧
        ∃ l ∈ lines, ∃ t ∈ queryTokens query, containsSub t (pyLower l) = true) →
      (searchWarrantyInfo [] files query maxResults).found = true) := by
  by_cases hemp : (queryTokens query).isEmpty = true
  · -- no tokens: the fallback is empty, and no token can be in the file
    have hfb : fallbackTextSearch files query ["warranty_policy".toList] maxResults = [] := by
      rw [fallbackWarranty_eq, if_pos hemp]
    refine ⟨?_, ?_, ?_⟩
    · rw [hfb]
      simp
    · rw [hfb]
      intro r hr
      cases hr
    · rintro _ ⟨lines, _, l, _, t, ht, _⟩
      rw [List.isEmpty_iff.mp hemp] at ht
      cases ht
  · cases hfiles : files "warranty_policy.md".toList with
    | none =>
      have hfb : fallbackTextSearch files query ["warranty_policy".toList] maxResults = [] := by
        rw [fallbackWarranty_eq, if_neg hemp, hfiles]
        simp
      refine ⟨?_, ?_, ?_⟩
      · rw [hfb]
        simp
      · rw [hfb]
        intro r hr
        cases hr
      · rintro _ ⟨lines, hfile', _⟩
        exact Option.noConfusion hfile'
    | some lines =>
      have hfb : fallbackTextSearch files query ["warranty_policy".toList] maxResults =
          (((buildSnippets lines (queryTokens query)).take maxResults).map
            (fun snippet =>
              { content := snippet
                source := sourceOfFilename "warranty_policy.md".toList
                documentType := "warranty_policy".toList
                fallback := true
                relevance := (2 : ℚ) / 5 })).take maxResults := by
        rw [fallbackWarranty_eq, if_neg hemp, hfiles]
      refine ⟨?_, ?_, ?_⟩
      · rw [hfb, List.length_take]
        exact min_le_left _ _
      · intro r hr
        rw [hfb] at hr
        obtain ⟨s, hs, rfl⟩ := List.mem_map.mp (List.mem_of_mem_take hr)
        have hsnip : s ∈ buildSnippets lines (queryTokens query) := List.mem_of_mem_take hs
        obtain ⟨i, hi, hg, rfl⟩ := foldl_snipStep_shape lines (queryTokens query)
          (List.range lines.length) [] (by intro x hx; cases hx)
          (by intro j hj; exact List.mem_range.mp hj) s hsnip
        exact ⟨rfl, rfl, rfl, lines, rfl, i, hi, hg, rfl⟩
      · intro hmax hkey
        obtain ⟨lines', hfile', l, hl, t, ht, hcont⟩ := hkey
        have hleq : lines' = lines := (Option.some.inj hfile').symm
        rw [hleq] at hl
        obtain ⟨i, hi, hli⟩ := List.mem_iff_getElem.mp hl
        have hgetd : lines.getD i [] = l := by
          rw [List.getD_eq_getElem lines [] hi, hli]
        have hg : snippetGuard lines (queryTokens query) i = true := by
          unfold snippetGuard
          rw [List.any_eq_true]
          exact ⟨t, ht, by rw [hgetd]; exact hcont⟩
        obtain ⟨htne, htns⟩ := queryTokens_props ht
        obtain ⟨c, hcl, hcs⟩ := line_has_nonspace htne htns hcont
        have hsne : snippetAt lines i ≠ [] :=
          snippetAt_ne_nil hi (by rw [hgetd]; exact hcl) hcs
        have hbne : buildSnippets lines (queryTokens query) ≠ [] :=
          foldl_snipStep_ne_nil lines (queryTokens query) (List.range lines.length) []
            i (List.mem_range.mpr hi) hg hsne
        have hfbne : fallbackTextSearch files query ["warranty_policy".toList]
            maxResults ≠ [] := by
          rw [hfb]
          refine take_ne_nil (by omega) ?_
          have h1 : (buildSnippets lines (queryTokens query)).take maxResults ≠ [] :=
            take_ne_nil (by omega) hbne
          simpa using h1
        have hfbempty : (fallbackTextSearch files query ["warranty_policy".toList]
            maxResults).isEmpty = false := by
          rw [Bool.eq_false_iff]
          intro h
          exact hfbne (List.isEmpty_iff.mp h)
        unfold searchWarrantyInfo
        rw [if_pos (show ([] : List VectorHit).isEmpty = true from rfl),
          if_neg (show ¬(fallbackTextSearch files query ["warranty_policy".toList]
            maxResults).isEmpty = true by rw [hfbempty]; simp)]

/-- Witness for C6: with the index empty and the keyword "warranty" present
in the warranty file, the query is still answered. -/
theorem searchWarranty_fallback_witness :
    (searchWarrantyInfo [] warrantyFiles "warranty period".toList 3).found = true :=
  (searchWarranty_fallback warrantyFiles "warranty period".toList 3).2.2 (by decide)
    ⟨["# Warranty Policy".toList, "All phones include a 12-month warranty.".toList],
      rfl, by decide⟩

/-! ### The chunking round-trip (C4) -/

theorem pyRfindDot_bounds {text : List Char} {s e i : Nat}
    (h : pyRfindDot text s e = some i) : s ≤ i ∧ i < e ∧ i < text.length := by
  unfold pyRfindDot at h
  obtain ⟨hrange, hpred⟩ := List.mem_filter.mp (mem_of_getLast?_eq_some h)
  have hlen : i < text.length := List.mem_range.mp hrange
  simp only [Bool.and_eq_true, decide_eq_true_eq] at hpred
  exact ⟨hpred.1.1, hpred.1.2, hlen⟩

theorem chunkEnd_bounds (text : List Char) (start : Nat) :
    start + 402 ≤ chunkEnd text 500 start ∧ chunkEnd text 500 start ≤ start + 500 := by
  unfold chunkEnd
  split
  · cases hfind : pyRfindDot text start (start + 500) with
    | none => simp
    | some i =>
      obtain ⟨h1, h2, _⟩ := pyRfindDot_bounds hfind
      simp only []
      split
      · rename_i hgt
        have : (start : Int) + 400 < (i : Int) := by push_cast at hgt ⊢; omega
        have hi : start + 400 < i := by exact_mod_cast this
        omega
      · omega
  · omega

theorem pySlice_sub_pySlice {text : List Char} {start p L e : Nat}
    (hsp : start ≤ p) (hpe : p + L ≤ e) :
    pySlice text p (p + L) <:+: pySlice text start e := by
  unfold pySlice
  have h1 : e - start = (p - start) + (L + (e - (p + L))) := by omega
  rw [h1, List.take_add, List.take_add]
  have h2 : (text.drop start).drop (p - start) = text.drop p := by
    rw [List.drop_drop]
    congr 1
    omega
  rw [h2]
  rw [show p + L - p = L from by omega]
  exact ⟨(text.drop start).take (p - start),
    ((text.drop p).drop L).take (e - (p + L)), by rw [List.append_assoc]⟩

theorem pySlice_of_append (s w t : List Char) :
    pySlice (s ++ w ++ t) s.length (s.length + w.length) = w := by
  unfold pySlice
  rw [List.append_assoc, List.drop_left]
  rw [show s.length + w.length - s.length = w.length from by omega]
  exact List.take_left w t

theorem chunkLoop_cover (text w : List Char) (p L : Nat)
    (hw : w = pySlice text p (p + L)) (hwne : w ≠ [])
    (hns : ∀ c ∈ w, pyIsSpace c = false) (hL : L ≤ 50) (hL0 : 0 < L)
    (hpL : p + L ≤ text.length) :
    ∀ (fuel start : Nat), start ≤ p → start < text.length →
      text.length ≤ start + 352 * fuel →
      ∃ chunk ∈ chunkLoop text 500 50 fuel start, w <:+: chunk := by
  intro fuel
  induction fuel with
  | zero =>
    intro start _ h2 h3
    omega
  | succ n ih =>
    intro start hsp hslen hfuel
    have he := chunkEnd_bounds text start
    rw [chunkLoop, if_pos hslen]
    by_cases hc : p + L ≤ chunkEnd text 500 start
    · have hinf : w <:+: pySlice text start (chunkEnd text 500 start) := by
        rw [hw]
        exact pySlice_sub_pySlice hsp hc
      have hstrip : w <:+: pyStrip (pySlice text start (chunkEnd text 500 start)) :=
        sub_pyStrip hwne hns hinf
      have hne : pyStrip (pySlice text start (chunkEnd text 500 start)) ≠ [] :=
        ne_nil_of_sub hwne hstrip
      refine ⟨pyStrip (pySlice text start (chunkEnd text 500 start)), ?_, hstrip⟩
      have hemp : (pyStrip (pySlice text start (chunkEnd text 500 start))).isEmpty = false := by
        rw [Bool.eq_false_iff]
        intro hx
        exact hne (List.isEmpty_iff.mp hx)
      rw [hemp]
      simp
    · push_neg at hc
      have h1 : chunkEnd text 500 start - 50 ≤ p := by omega
      have h2 : chunkEnd text 500 start - 50 < text.length := by omega
      have h3 : text.length ≤ (chunkEnd text 500 start - 50) + 352 * n := by omega
      obtain ⟨chunk, hmem, hcw⟩ := ih (chunkEnd text 500 start - 50) h1 h2 h3
      exact ⟨chunk, List.mem_append_right _ hmem, hcw⟩

/-- C4 (amended): every whitespace-delimited word of a document whose length
is at most the overlap (50 characters) survives chunking intact: it appears
contiguously in at least one chunk produced with the default parameters
(chunk size 500, overlap 50).  Words longer than the overlap can straddle a
chunk boundary and be recovered only in fragments. -/
theorem chunkText_recovers_short_words (text w : List Char) (hwne : w ≠ [])
    (hns : ∀ c ∈ w, pyIsSpace c = false) (hlen : w.length ≤ 50)
    (hsub : w <:+: text) :
    ∃ chunk ∈ chunkText text 500 50, w <:+: chunk := by
  by_cases hshort : text.length ≤ 500
  · refine ⟨text, ?_, hsub⟩
    unfold chunkText
    rw [if_pos hshort]
    exact List.mem_singleton.mpr rfl
  · obtain ⟨s, t, hst⟩ := hsub
    have hw : w = pySlice text s.length (s.length + w.length) := by
      rw [← hst]
      exact (pySlice_of_append s w t).symm
    have hpL : s.length + w.length ≤ text.length := by
      rw [← hst]
      simp [List.length_append]
    have hL0 : 0 < w.length := List.length_pos.mpr hwne
    have hcover := chunkLoop_cover text w s.length w.length hw hwne hns hlen hL0 hpL
      (text.length + 1) 0 (Nat.zero_le _) (by omega) (by omega)
    unfold chunkText
    rw [if_neg hshort]
    exact hcover

/-- Witness for C4 (amended) at a short concrete document. -/
theorem chunkText_recovers_short_words_witness :
    ∃ chunk ∈ chunkText "ab cd".toList 500 50, "cd".toList <:+: chunk :=
  chunkText_recovers_short_words "ab cd".toList "cd".toList (by decide) (by decide)
    (by decide) (by decide)

/-- C4 counterexample: `longWord` is a whitespace-delimited word of
`longWordText` (length 64, all non-whitespace), yet it occurs nowhere in the
concatenation of the chunks: it starts more than `overlap` characters before
the first chunk boundary and crosses it, so both chunks hold only
fragments. -/
theorem chunkText_roundtrip_counterexample :
    (longWord ≠ [] ∧ (∀ c ∈ longWord, pyIsSpace c = false) ∧
      longWord ∈ pyWords longWordText) ∧
    ¬longWord <:+: (chunkText longWordText 500 50).flatten := by
  decide

end PhoneShop
